import Mathlib

/-!
Verification development for the RGB-D visual odometry backend
(`backend.cpp`, `mappoint.cpp`, `frame.h`, `camera.h`).

The C++ code is shallowly embedded: `unordered_map`s become association
lists over `Nat` keys, shared pointers to keyframes / mappoints become
their (unique) ids, `double` quantities that are only ever compared
(descriptor distances, χ² residuals) become `Int`, poses and positions
(SE3 / Vector3d) become opaque `Int` tokens since the backend only moves
them around.  Stateful member functions become explicit state-passing
functions.
-/

set_option autoImplicit false

namespace RgbdVO

/-! ## Association-list primitives (model of `std::unordered_map`) -/

/-- Lookup of a key in an association list; models `map.count` / `map[k]`
read access on a C++ `unordered_map`. -/
def lookupA {α : Type} : List (Nat × α) → Nat → Option α
  | [], _ => none
  | (k', v) :: rest, k => if k' = k then some v else lookupA rest k

/-- Update (insert-or-assign) of a key in an association list; models
`map[k] = v` on a C++ `unordered_map`. -/
def updateA {α : Type} : List (Nat × α) → Nat → α → List (Nat × α)
  | [], k, v => [(k, v)]
  | (k', v') :: rest, k, v =>
      if k' = k then (k, v) :: rest else (k', v') :: updateA rest k v

theorem lookupA_updateA_self {α : Type} (m : List (Nat × α)) (k : Nat) (v : α) :
    lookupA (updateA m k v) k = some v := by
  induction m with
  | nil => simp [updateA, lookupA]
  | cons p rest ih =>
      obtain ⟨k', v'⟩ := p
      by_cases h : k' = k
      · simp [updateA, h, lookupA]
      · simp [updateA, h, lookupA, ih]

theorem lookupA_updateA_other {α : Type} (m : List (Nat × α)) (k k' : Nat) (v : α)
    (h : k' ≠ k) : lookupA (updateA m k' v) k = lookupA m k := by
  induction m with
  | nil => simp [updateA, lookupA, h]
  | cons p rest ih =>
      obtain ⟨k'', v''⟩ := p
      by_cases h2 : k'' = k'
      · subst h2
        simp [updateA, lookupA, h]
      · simp [updateA, h2, lookupA, ih]

/-! ## C8: backend input slot (`Backend::ProcessNewKeyframeAsync`) -/

/-- Pending input slot of the backend: the fields `keyframeCurr_`,
`oldMptIdKptIdxMap_`, `newMptKptIdxMap_` guarded by `backendMutex_`.
Pointers are represented by ids; each map is the list of its entries. -/
structure BackendInputState where
  keyframeCurr : Option Nat
  oldMptIdKptIdxMap : List (Nat × Nat)
  newMptKptIdxMap : List (Nat × Nat)
deriving DecidableEq, Repr

/-- Model of `Backend::ProcessNewKeyframeAsync`: under the input lock it
assigns `keyframeCurr_ = keyframe`, clears each pending map and inserts the
argument map's entries, then signals the worker.  A `clear()` followed by
`insert(begin, end)` leaves the member equal to the argument. -/
def ProcessNewKeyframeAsync (st : BackendInputState) (keyframe : Nat)
    (oldMptIdKptIdxMap : List (Nat × Nat)) (newMptKptIdxMap : List (Nat × Nat)) :
    BackendInputState :=
  { st with
    keyframeCurr := some keyframe
    oldMptIdKptIdxMap := oldMptIdKptIdxMap
    newMptKptIdxMap := newMptKptIdxMap }

/-- C8: `ProcessNewKeyframeAsync` replaces, rather than queues, any pending
input: after any call the pending keyframe and both pending id-to-keypoint
maps equal exactly that call's arguments, and two successive calls leave the
pending input in the same state as the second call alone. -/
theorem processNewKeyframeAsync_replaces (st : BackendInputState)
    (k1 k2 : Nat) (o1 o2 n1 n2 : List (Nat × Nat)) :
    (ProcessNewKeyframeAsync st k1 o1 n1).keyframeCurr = some k1 ∧
    (ProcessNewKeyframeAsync st k1 o1 n1).oldMptIdKptIdxMap = o1 ∧
    (ProcessNewKeyframeAsync st k1 o1 n1).newMptKptIdxMap = n1 ∧
    ProcessNewKeyframeAsync (ProcessNewKeyframeAsync st k1 o1 n1) k2 o2 n2 =
      ProcessNewKeyframeAsync st k2 o2 n2 := by
  refine ⟨rfl, rfl, rfl, rfl⟩

/-! ## C1: candidate keyframe set of `Backend::AddNewMappointsToExistingKeyframe` -/

/-- Keyframe data relevant to the covisibility expansion: its id and the
result of `GetAllCovisibleKfIds()`. -/
structure CovKeyframe where
  id : Nat
  covisibleKfIds : List Nat
deriving DecidableEq, Repr

/-- Keyframe registry of the Map Manager; `MapManager::GetKeyframe` is
`lookupA` (returns the stored shared pointer, or none). -/
def KfRegistry : Type := List (Nat × CovKeyframe)

/-- Insert into an `unordered_set<Frame::Ptr>`: append if not yet present. -/
def insertKfSet (s : List CovKeyframe) (kf : CovKeyframe) : List CovKeyframe :=
  if kf ∈ s then s else s ++ [kf]

/-- Model of the candidate-set computation in
`Backend::AddNewMappointsToExistingKeyframe` as the source writes it:
for every covisible id of the current keyframe, look the keyframe up and
insert it; then for every `neighborKfId` of that keyframe, look up — as in
the source — `kfId` (not `neighborKfId`) and insert the result; finally
erase the current keyframe if present. -/
def covisibleKfsCode (reg : KfRegistry) (keyframeCurr : CovKeyframe) :
    List CovKeyframe :=
  let s := keyframeCurr.covisibleKfIds.foldl (fun acc kfId =>
    match lookupA reg kfId with
    | none => acc
    | some kf =>
        let acc := insertKfSet acc kf
        kf.covisibleKfIds.foldl (fun acc2 _neighborKfId =>
          match lookupA reg kfId with
          | none => acc2
          | some neighborKf => insertKfSet acc2 neighborKf) acc) []
  if keyframeCurr ∈ s then s.erase keyframeCurr else s

/-- Modelled from the spec: the intended candidate set — the union of the
current keyframe's covisible keyframes and, for each such neighbor, the
keyframes found by looking up each `neighborKfId` of that neighbor in the
Map Manager (a genuine two-hop expansion), minus the current keyframe. -/
def covisibleKfsSpec (reg : KfRegistry) (keyframeCurr : CovKeyframe) :
    List CovKeyframe :=
  let s := keyframeCurr.covisibleKfIds.foldl (fun acc kfId =>
    match lookupA reg kfId with
    | none => acc
    | some kf =>
        let acc := insertKfSet acc kf
        kf.covisibleKfIds.foldl (fun acc2 neighborKfId =>
          match lookupA reg neighborKfId with
          | none => acc2
          | some neighborKf => insertKfSet acc2 neighborKf) acc) []
  if keyframeCurr ∈ s then s.erase keyframeCurr else s

/-- Demo keyframe 0: the current keyframe, covisible with keyframe 1. -/
def demoKf0 : CovKeyframe := ⟨0, [1]⟩

/-- Demo keyframe 1: covisible with keyframes 0 and 2. -/
def demoKf1 : CovKeyframe := ⟨1, [0, 2]⟩

/-- Demo keyframe 2: a two-hop neighbor of keyframe 0 via keyframe 1. -/
def demoKf2 : CovKeyframe := ⟨2, [1]⟩

/-- Demo registry holding the three keyframes. -/
def demoReg : KfRegistry := [(0, demoKf0), (1, demoKf1), (2, demoKf2)]

/-- C1: the source's candidate set is not the two-hop expansion.  On a map
where keyframe 0 is covisible with keyframe 1 and keyframe 1 with keyframe 2,
the source's inner loop looks up `kfId` instead of `neighborKfId`, so the
two-hop neighbor (keyframe 2) is never inserted: the code yields `{kf1}`
while the intended expansion yields `{kf1, kf2}`. -/
theorem covisibleKfsCode_misses_two_hop :
    covisibleKfsCode demoReg demoKf0 = [demoKf1] ∧
    covisibleKfsSpec demoReg demoKf0 = [demoKf1, demoKf2] ∧
    covisibleKfsCode demoReg demoKf0 ≠ covisibleKfsSpec demoReg demoKf0 := by
  refine ⟨by decide, by decide, by decide⟩

/-! ## C2: lookup misses in the edge-building loop of `Backend::OptimizeLocalMap` -/

/-- Keyframe data relevant to edge building: its id and its keypoint pixel
positions (`GetKeypoint` returns the keypoint at an index). -/
structure EdgeKeyframe where
  id : Nat
  keypoints : List (Int × Int)
deriving DecidableEq, Repr

/-- Model of the per-mappoint edge-building loop of
`Backend::OptimizeLocalMap` (the iteration over `mpt->GetObservedByKeyframesMap()`).
As the source writes it, `keyframe->GetKeypoint(kptIdx)` is evaluated
before the `keyframe == nullptr` test, so a lookup miss dereferences a null
pointer; the model reports that as `Except.error`.  On success it returns
the list of `(kfId, measurement)` pairs of the edges added. -/
def edgeLoopCode (reg : List (Nat × EdgeKeyframe)) :
    List (Nat × Nat) → Except Unit (List (Nat × (Int × Int)))
  | [] => Except.ok []
  | (kfId, kptIdx) :: rest =>
      match lookupA reg kfId with
      | none => Except.error ()
      | some keyframe =>
          match edgeLoopCode reg rest with
          | Except.error e => Except.error e
          | Except.ok edges =>
              Except.ok ((kfId, keyframe.keypoints.getD kptIdx (0, 0)) :: edges)

/-- Modelled from the spec: the intended loop body — a keyframe id that
resolves to none is skipped silently and no member of it is accessed; the
remaining observations are processed as usual. -/
def edgeLoopSpec (reg : List (Nat × EdgeKeyframe)) :
    List (Nat × Nat) → List (Nat × (Int × Int))
  | [] => []
  | (kfId, kptIdx) :: rest =>
      match lookupA reg kfId with
      | none => edgeLoopSpec reg rest
      | some keyframe =>
          (kfId, keyframe.keypoints.getD kptIdx (0, 0)) :: edgeLoopSpec reg rest

/-- Demo keyframe for the edge loop, id 1 with one keypoint. -/
def demoEdgeKf : EdgeKeyframe := ⟨1, [(3, 4)]⟩

/-- Demo registry holding only keyframe 1. -/
def demoEdgeReg : List (Nat × EdgeKeyframe) := [(1, demoEdgeKf)]

/-- Demo observed-by map of a mappoint: observed by keyframe 2 (absent from
the registry) at keypoint 0 and by keyframe 1 at keypoint 0. -/
def demoObservedBy : List (Nat × Nat) := [(2, 0), (1, 0)]

/-- C2: when an observing keyframe id resolves to none, the source does not
skip it silently: `GetKeypoint` is called on the null keyframe before the
null test (the model's error outcome), whereas the intended behavior skips
the entity and processes the rest. -/
theorem edgeLoopCode_derefs_missing_keyframe :
    edgeLoopCode demoEdgeReg demoObservedBy = Except.error () ∧
    edgeLoopSpec demoEdgeReg demoObservedBy = [(1, (3, 4))] := by
  refine ⟨rfl, by decide⟩

/-! ## C5 / C6: the two outlier sweeps of `Backend::OptimizeLocalMap` -/

/-- Static data of one reprojection edge in `edgeToKfThenMpt_`: the ids of
its keyframe and mappoint, and its χ² residual as recomputed by
`computeError()` right after the first (`chi2a`) and second (`chi2b`)
10-iteration optimization round.  The solver itself is external; the two
residual values are the data the sweeps read. -/
structure BAEdge where
  kfId : Nat
  mptId : Nat
  chi2a : Int
  chi2b : Int
deriving DecidableEq, Repr

/-- Mutable per-edge optimizer state: the edge, its `level()` and whether a
robust kernel is installed. -/
structure EdgeSt where
  edge : BAEdge
  level : Nat
  robust : Bool
deriving DecidableEq, Repr

/-- Initial optimizer state of an edge as built in `OptimizeLocalMap`:
level 0 and a Huber robust kernel installed. -/
def initEdgeSt (e : BAEdge) : EdgeSt := ⟨e, 0, true⟩

/-- Model of outlier sweep pass 1 (after the first `optimize(10)`): for every
edge, `computeError()`; if `chi2() > chi2Threshold_` the observation
`(kfId, mptId)` is removed from its keyframe and the edge's level is set
to 1; then — unconditionally, as the source writes it — `setRobustKernel(0)`.
Returns the updated edge states and the list of removed observations. -/
def sweep1 (chi2Th : Int) : List EdgeSt → List EdgeSt × List (Nat × Nat)
  | [] => ([], [])
  | e :: rest =>
      let (es, rems) := sweep1 chi2Th rest
      if e.edge.chi2a > chi2Th then
        ({ e with level := 1, robust := false } :: es,
         (e.edge.kfId, e.edge.mptId) :: rems)
      else
        ({ e with robust := false } :: es, rems)

/-- Model of outlier sweep pass 2 (after the second `optimize(10)`): for
every edge, `computeError()`; if the edge is still at level 0 and
`chi2() > chi2Threshold_` the observation is removed; and for every edge the
mappoint recorded for it is marked `optimized_ = true`.  Returns the removed
observations and the mappoint ids marked optimized. -/
def sweep2 (chi2Th : Int) : List EdgeSt → List (Nat × Nat) × List Nat
  | [] => ([], [])
  | e :: rest =>
      let (rems, opts) := sweep2 chi2Th rest
      (if e.level = 0 ∧ e.edge.chi2b > chi2Th then
         (e.edge.kfId, e.edge.mptId) :: rems
       else rems,
       e.edge.mptId :: opts)

/-- The property claimed of pass 1: excess-χ² edges are removed and demoted
to level 1, and the robust kernel is cleared on exactly the edges that
remain at level 0 — not on the excluded ones. -/
def sweep1KernelClaim (chi2Th : Int) (edges : List BAEdge) : Prop :=
  (∀ e ∈ edges, e.chi2a > chi2Th →
      (e.kfId, e.mptId) ∈ (sweep1 chi2Th (edges.map initEdgeSt)).2) ∧
  (∀ e' ∈ (sweep1 chi2Th (edges.map initEdgeSt)).1,
      (e'.edge.chi2a > chi2Th → e'.level = 1) ∧ (e'.robust = false ↔ e'.level = 0))

instance sweep1KernelClaimDecidable (chi2Th : Int) (edges : List BAEdge) :
    Decidable (sweep1KernelClaim chi2Th edges) := by
  unfold sweep1KernelClaim
  infer_instance

/-- Demo edge whose first-round χ² (8) exceeds the demo threshold (7). -/
def demoBadEdge : BAEdge := ⟨3, 5, 8, 2⟩

/-- C5 counterexample: with threshold 7 and the single edge `demoBadEdge`
(χ² = 8 after round 1), pass 1 sets the edge to level 1 but also clears its
robust kernel, so the kernel is not cleared on exactly the level-0 edges:
the claim's property fails. -/
theorem sweep1_clears_kernel_on_excluded : ¬ sweep1KernelClaim 7 [demoBadEdge] := by
  decide

/-- Helper: closed form of pass 1 — the resulting edge states and the
removal list as `map` / `filter` over the input edges. -/
theorem sweep1_eq_map_filter (chi2Th : Int) (edges : List BAEdge) :
    (sweep1 chi2Th (edges.map initEdgeSt)).1 =
      edges.map (fun e =>
        { edge := e, level := if e.chi2a > chi2Th then 1 else 0, robust := false }) ∧
    (sweep1 chi2Th (edges.map initEdgeSt)).2 =
      (edges.filter (fun e => e.chi2a > chi2Th)).map (fun e => (e.kfId, e.mptId)) := by
  induction edges with
  | nil => exact ⟨rfl, rfl⟩
  | cons e rest ih =>
      by_cases h : e.chi2a > chi2Th
      · simp only [List.map_cons, sweep1, initEdgeSt, if_pos h, List.filter_cons,
          decide_eq_true h]
        exact ⟨by simp [ih.1, initEdgeSt], by simp [ih.2, initEdgeSt]⟩
      · simp only [List.map_cons, sweep1, initEdgeSt, if_neg h, List.filter_cons]
        have hd : decide (e.chi2a > chi2Th) = false := decide_eq_false h
        simp only [hd]
        exact ⟨by simp [ih.1, initEdgeSt, if_neg h], by simp [ih.2, initEdgeSt]⟩

/-- C5 amended: in pass 1, for every edge whose first-round χ² exceeds the
threshold the observation is removed and the level is set to 1, levels of
the other edges stay 0, the removals are exactly those excess edges — and
the robust kernel is cleared on every edge, the excluded ones included. -/
theorem sweep1_amended (chi2Th : Int) (edges : List BAEdge) :
    (sweep1 chi2Th (edges.map initEdgeSt)).1 =
      edges.map (fun e =>
        { edge := e, level := if e.chi2a > chi2Th then 1 else 0, robust := false }) ∧
    (sweep1 chi2Th (edges.map initEdgeSt)).2 =
      (edges.filter (fun e => e.chi2a > chi2Th)).map (fun e => (e.kfId, e.mptId)) :=
  sweep1_eq_map_filter chi2Th edges

/-- Helper for C6: membership of the removals of pass 2 — a level-0 edge
whose second-round χ² exceeds the threshold contributes its observation. -/
theorem sweep2_removes_excess (chi2Th : Int) (es : List EdgeSt) (e : EdgeSt)
    (he : e ∈ es) (hl : e.level = 0) (hc : e.edge.chi2b > chi2Th) :
    (e.edge.kfId, e.edge.mptId) ∈ (sweep2 chi2Th es).1 := by
  induction es with
  | nil => cases he
  | cons e0 rest ih =>
      rcases List.mem_cons.mp he with h0 | hrest
      · subst h0
        simp only [sweep2, if_pos (And.intro hl hc)]
        exact List.mem_cons_self _ _
      · have := ih hrest
        simp only [sweep2]
        by_cases h0 : e0.level = 0 ∧ e0.edge.chi2b > chi2Th
        · simp only [if_pos h0]
          exact List.mem_cons_of_mem _ this
        · simpa [if_neg h0] using this

/-- Helper for C6: every edge's mappoint id is marked optimized by pass 2. -/
theorem sweep2_marks_optimized (chi2Th : Int) (es : List EdgeSt) (e : EdgeSt)
    (he : e ∈ es) : e.edge.mptId ∈ (sweep2 chi2Th es).2 := by
  induction es with
  | nil => cases he
  | cons e0 rest ih =>
      rcases List.mem_cons.mp he with h0 | hrest
      · subst h0
        exact List.mem_cons_self _ _
      · exact List.mem_cons_of_mem _ (ih hrest)

/-- C6: after the two-pass local bundle adjustment, every retained edge —
one still at level 0 whose observation was removed in neither sweep — has
final χ² at most the threshold; and every mappoint whose vertex participated
(each such mappoint being recorded for at least one edge) is marked
`optimized_ = true`. -/
theorem twoPassBA_retained_and_optimized (chi2Th : Int) (edges : List BAEdge)
    (vertexMptIds : List Nat)
    (hpart : ∀ m ∈ vertexMptIds, ∃ e ∈ edges, e.mptId = m) :
    (∀ e' ∈ (sweep1 chi2Th (edges.map initEdgeSt)).1, e'.level = 0 →
        (e'.edge.kfId, e'.edge.mptId) ∉ (sweep1 chi2Th (edges.map initEdgeSt)).2 →
        (e'.edge.kfId, e'.edge.mptId) ∉
          (sweep2 chi2Th (sweep1 chi2Th (edges.map initEdgeSt)).1).1 →
        e'.edge.chi2b ≤ chi2Th) ∧
    (∀ m ∈ vertexMptIds,
        m ∈ (sweep2 chi2Th (sweep1 chi2Th (edges.map initEdgeSt)).1).2) := by
  constructor
  · intro e' he' hl _hrem1 hrem2
    by_contra hgt
    push_neg at hgt
    exact hrem2 (sweep2_removes_excess chi2Th _ e' he' hl hgt)
  · intro m hm
    obtain ⟨e, he, hme⟩ := hpart m hm
    have he1 : (⟨e, if e.chi2a > chi2Th then 1 else 0, false⟩ : EdgeSt) ∈
        (sweep1 chi2Th (edges.map initEdgeSt)).1 := by
      rw [(sweep1_eq_map_filter chi2Th edges).1]
      exact List.mem_map_of_mem _ he
    have := sweep2_marks_optimized chi2Th _ _ he1
    simpa [hme] using this

/-- Demo edge whose χ² stays at 3 in both rounds, for mappoint 5. -/
def demoGoodEdge : BAEdge := ⟨3, 5, 3, 3⟩

/-- C6 witness: a concrete run — threshold 7, one edge with χ² 3 after both
rounds for mappoint 5 — where the retained edge satisfies the bound and the
participating mappoint is marked optimized. -/
theorem twoPassBA_retained_and_optimized_witness :
    (∀ e' ∈ (sweep1 7 (List.map initEdgeSt [demoGoodEdge])).1,
        e'.level = 0 →
        (e'.edge.kfId, e'.edge.mptId) ∉ (sweep1 7 (List.map initEdgeSt [demoGoodEdge])).2 →
        (e'.edge.kfId, e'.edge.mptId) ∉
          (sweep2 7 (sweep1 7 (List.map initEdgeSt [demoGoodEdge])).1).1 →
        e'.edge.chi2b ≤ 7) ∧
    (∀ m ∈ [5],
        m ∈ (sweep2 7 (sweep1 7 (List.map initEdgeSt [demoGoodEdge])).1).2) :=
  twoPassBA_retained_and_optimized 7 [demoGoodEdge] [5]
    (by
      intro m hm
      simp only [List.mem_singleton] at hm
      exact ⟨demoGoodEdge, by decide, by simp [hm, demoGoodEdge]⟩)

/-! ## C3 / C4 / C10: the frontend handoff (`Backend::UpdateFrontendTrackingMap`) -/

/-- Shared entity state read and mutated by the handoff callback: per-id
stored keyframe poses (`SetTcw`) and mappoint positions (`SetPosition`),
the set of mappoint ids whose `outlier_` flag is set, and the key set of
`MapManager::GetAllMappoints()`.  Poses and positions are opaque tokens. -/
structure HandoffWorld where
  kfPose : List (Nat × Int)
  mptPosition : List (Nat × Int)
  mptOutlier : List Nat
  allMappointIds : List Nat
deriving DecidableEq, Repr

/-- Per-round backend state at handoff time: the just-processed keyframe's
id and the vertex estimates recorded in `kfIdToCovKfThenVertex_` and
`mptIdToMptThenVertex_` (keyed by entity id). -/
structure HandoffRound where
  keyframeCurrId : Nat
  covKfVertex : List (Nat × Int)
  mptVertex : List (Nat × Int)
deriving DecidableEq, Repr

/-- Frontend-owned state passed to the callback by mutable reference:
`refKeyframe` (as an optional keyframe id) and the key set of
`trackingMap` (each key maps to the mappoint with that id). -/
structure FrontendState where
  refKeyframeId : Option Nat
  trackingMapIds : List Nat
deriving DecidableEq, Repr

/-- The per-round tracking-map rebuild: iterate `mptIdToMptThenVertex_`,
skip entries whose mappoint is an outlier, and keep the ids. -/
def trackingSurvivors (w : HandoffWorld) (r : HandoffRound) : List Nat :=
  r.mptVertex.filterMap (fun p => if p.1 ∈ w.mptOutlier then none else some p.1)

/-- The pose write-back loop: `kf->SetTcw(kfVertex->estimate())` for every
entry of `kfIdToCovKfThenVertex_`. -/
def writeBackPoses (kfPose : List (Nat × Int)) (covKfVertex : List (Nat × Int)) :
    List (Nat × Int) :=
  covKfVertex.foldl (fun st p => updateA st p.1 p.2) kfPose

/-- The position write-back loop: `mpt->SetPosition(mptVertex->estimate())`
for every entry of `mptIdToMptThenVertex_` whose mappoint is not an
outlier. -/
def writeBackPositions (mptPosition : List (Nat × Int)) (mptOutlier : List Nat)
    (mptVertex : List (Nat × Int)) : List (Nat × Int) :=
  mptVertex.foldl
    (fun st p => if p.1 ∈ mptOutlier then st else updateA st p.1 p.2) mptPosition

/-- Model of the callback body of `Backend::UpdateFrontendTrackingMap`:
if `refKeyframe` is null or its id differs from the current keyframe's id,
reset `refKeyframe` to the current keyframe and rebuild `trackingMap` from
the non-outlier per-round mappoints, falling back to the full Map Manager
snapshot when fewer than 100 survive; then write back all covisible-vertex
poses and all non-outlier-vertex positions. -/
def UpdateFrontendTrackingMap (w : HandoffWorld) (r : HandoffRound)
    (fs : FrontendState) : HandoffWorld × FrontendState :=
  let fs' :=
    if fs.refKeyframeId = some r.keyframeCurrId then fs
    else
      let tm := trackingSurvivors w r
      let tm := if tm.length < 100 then w.allMappointIds else tm
      { refKeyframeId := some r.keyframeCurrId, trackingMapIds := tm }
  ({ w with
      kfPose := writeBackPoses w.kfPose r.covKfVertex
      mptPosition := writeBackPositions w.mptPosition w.mptOutlier r.mptVertex },
   fs')

/-- Helper: the position write-back leaves a key untouched when it is an
outlier or has no vertex entry. -/
theorem writeBackPositions_frozen (mptPosition : List (Nat × Int))
    (mptOutlier : List Nat) (mptVertex : List (Nat × Int)) (k : Nat)
    (h : k ∈ mptOutlier ∨ k ∉ mptVertex.map Prod.fst) :
    lookupA (writeBackPositions mptPosition mptOutlier mptVertex) k =
      lookupA mptPosition k := by
  induction mptVertex generalizing mptPosition with
  | nil => rfl
  | cons p rest ih =>
      have hrest : k ∈ mptOutlier ∨ k ∉ rest.map Prod.fst := by
        rcases h with h | h
        · exact Or.inl h
        · refine Or.inr fun hk => h ?_
          simp only [List.map_cons, List.mem_cons]
          exact Or.inr hk
      show lookupA (writeBackPositions
        (if p.1 ∈ mptOutlier then mptPosition else updateA mptPosition p.1 p.2)
        mptOutlier rest) k = lookupA mptPosition k
      by_cases hp : p.1 ∈ mptOutlier
      · rw [if_pos hp]
        exact ih mptPosition hrest
      · rw [if_neg hp]
        rw [ih (updateA mptPosition p.1 p.2) hrest]
        have hne : p.1 ≠ k := by
          rcases h with h | h
          · intro he; exact hp (he ▸ h)
          · intro he; exact h (by simp [he.symm])
        exact lookupA_updateA_other mptPosition k p.1 p.2 hne

/-- Helper: the position write-back installs the vertex estimate for a
non-outlier key with a vertex entry (vertex keys assumed unique, as they
are keys of the C++ map `mptIdToMptThenVertex_`). -/
theorem writeBackPositions_hit (mptPosition : List (Nat × Int))
    (mptOutlier : List Nat) (mptVertex : List (Nat × Int)) (k : Nat) (v : Int)
    (hnd : (mptVertex.map Prod.fst).Nodup)
    (hmem : (k, v) ∈ mptVertex) (hout : k ∉ mptOutlier) :
    lookupA (writeBackPositions mptPosition mptOutlier mptVertex) k = some v := by
  induction mptVertex generalizing mptPosition with
  | nil => cases hmem
  | cons p rest ih =>
      have hnd' : (rest.map Prod.fst).Nodup := (List.nodup_cons.mp hnd).2
      rcases List.mem_cons.mp hmem with h0 | hrest
      · subst h0
        show lookupA (writeBackPositions
          (if k ∈ mptOutlier then mptPosition else updateA mptPosition k v)
          mptOutlier rest) k = some v
        rw [if_neg hout]
        have hk : k ∉ rest.map Prod.fst := by
          have := (List.nodup_cons.mp hnd).1
          simpa using this
        rw [writeBackPositions_frozen _ _ _ _ (Or.inr hk)]
        exact lookupA_updateA_self mptPosition k v
      · show lookupA (writeBackPositions
          (if p.1 ∈ mptOutlier then mptPosition else updateA mptPosition p.1 p.2)
          mptOutlier rest) k = some v
        by_cases hp : p.1 ∈ mptOutlier
        · rw [if_pos hp]; exact ih mptPosition hnd' hrest
        · rw [if_neg hp]; exact ih (updateA mptPosition p.1 p.2) hnd' hrest

/-- Helper: the pose write-back leaves keys without a vertex entry
untouched. -/
theorem writeBackPoses_frozen (kfPose : List (Nat × Int))
    (covKfVertex : List (Nat × Int)) (k : Nat)
    (h : k ∉ covKfVertex.map Prod.fst) :
    lookupA (writeBackPoses kfPose covKfVertex) k = lookupA kfPose k := by
  induction covKfVertex generalizing kfPose with
  | nil => rfl
  | cons p rest ih =>
      have hrest : k ∉ rest.map Prod.fst := fun hk => h (by simp [hk])
      have hne : p.1 ≠ k := fun he => h (by simp [he])
      show lookupA (writeBackPoses (updateA kfPose p.1 p.2) rest) k = lookupA kfPose k
      rw [ih (updateA kfPose p.1 p.2) hrest]
      exact lookupA_updateA_other kfPose k p.1 p.2 hne

/-- Helper: the pose write-back installs the vertex estimate for every
entry of the (unique-keyed) covisible vertex map. -/
theorem writeBackPoses_hit (kfPose : List (Nat × Int))
    (covKfVertex : List (Nat × Int)) (k : Nat) (v : Int)
    (hnd : (covKfVertex.map Prod.fst).Nodup) (hmem : (k, v) ∈ covKfVertex) :
    lookupA (writeBackPoses kfPose covKfVertex) k = some v := by
  induction covKfVertex generalizing kfPose with
  | nil => cases hmem
  | cons p rest ih =>
      have hnd' : (rest.map Prod.fst).Nodup := (List.nodup_cons.mp hnd).2
      rcases List.mem_cons.mp hmem with h0 | hrest
      · subst h0
        show lookupA (writeBackPoses (updateA kfPose k v) rest) k = some v
        have hk : k ∉ rest.map Prod.fst := by
          have := (List.nodup_cons.mp hnd).1
          simpa using this
        rw [writeBackPoses_frozen _ _ _ hk]
        exact lookupA_updateA_self kfPose k v
      · exact ih (updateA kfPose p.1 p.2) hnd' hrest

/-- C4: in the rebuild branch of the handoff (refKeyframe absent or with a
different id), refKeyframe becomes the just-processed keyframe; when at
least 100 non-outlier per-round mappoints survive, trackingMap holds exactly
the non-outlier mappoints that have a vertex in this round's optimizer; when
fewer than 100 survive, trackingMap is replaced by the Map Manager snapshot
of all mappoints — in particular, when every mappoint vertex is flagged
outlier the full-map snapshot is installed. -/
theorem handoff_rebuilds_trackingMap (w : HandoffWorld) (r : HandoffRound)
    (fs : FrontendState) (href : fs.refKeyframeId ≠ some r.keyframeCurrId) :
    ((UpdateFrontendTrackingMap w r fs).2.refKeyframeId = some r.keyframeCurrId) ∧
    (100 ≤ (trackingSurvivors w r).length →
      ∀ m, m ∈ (UpdateFrontendTrackingMap w r fs).2.trackingMapIds ↔
        (m ∈ r.mptVertex.map Prod.fst ∧ m ∉ w.mptOutlier)) ∧
    ((trackingSurvivors w r).length < 100 →
      (UpdateFrontendTrackingMap w r fs).2.trackingMapIds = w.allMappointIds) ∧
    ((∀ p ∈ r.mptVertex, p.1 ∈ w.mptOutlier) →
      (UpdateFrontendTrackingMap w r fs).2.trackingMapIds = w.allMappointIds) := by
  have hbranch : (UpdateFrontendTrackingMap w r fs).2 =
      { refKeyframeId := some r.keyframeCurrId
        trackingMapIds :=
          if (trackingSurvivors w r).length < 100 then w.allMappointIds
          else trackingSurvivors w r } := by
    simp only [UpdateFrontendTrackingMap, if_neg href]
  refine ⟨by rw [hbranch], ?_, ?_, ?_⟩
  · intro hge m
    rw [hbranch]
    have hnotlt : ¬ (trackingSurvivors w r).length < 100 := by omega
    simp only [if_neg hnotlt]
    constructor
    · intro hm
      obtain ⟨p, hp, hpm⟩ := List.mem_filterMap.mp hm
      by_cases hout : p.1 ∈ w.mptOutlier
      · rw [if_pos hout] at hpm; cases hpm
      · rw [if_neg hout] at hpm
        cases hpm
        exact ⟨List.mem_map_of_mem Prod.fst hp, hout⟩
    · rintro ⟨hm, hout⟩
      obtain ⟨p, hp, hpm⟩ := List.mem_map.mp hm
      refine List.mem_filterMap.mpr ⟨p, hp, ?_⟩
      rw [hpm, if_neg hout]
  · intro hlt
    rw [hbranch]
    simp only [if_pos hlt]
  · intro hall
    have hnil : trackingSurvivors w r = [] := by
      refine List.filterMap_eq_nil_iff.mpr fun p hp => ?_
      rw [if_pos (hall p hp)]
    have hlt : (trackingSurvivors w r).length < 100 := by
      rw [hnil]; decide
    rw [hbranch]
    simp only [if_pos hlt]

/-- Demo handoff world for the rebuild branch: mappoint 5 has a vertex but
is an outlier; the Map Manager snapshot holds mappoints 1 and 2. -/
def demoWorldC4 : HandoffWorld :=
  { kfPose := [], mptPosition := [(5, 7)], mptOutlier := [5],
    allMappointIds := [1, 2] }

/-- Demo round for the rebuild branch: current keyframe 9, no pose
vertices, one mappoint vertex for the outlier mappoint 5. -/
def demoRoundC4 : HandoffRound :=
  { keyframeCurrId := 9, covKfVertex := [], mptVertex := [(5, 99)] }

/-- Demo frontend state for the rebuild branch: no reference keyframe yet. -/
def demoFsC4 : FrontendState := { refKeyframeId := none, trackingMapIds := [] }

/-- C4 witness: on the demo state where every mappoint vertex is an
outlier, the rebuild branch installs the full-map snapshot `[1, 2]` and
resets refKeyframe to keyframe 9. -/
theorem handoff_rebuilds_trackingMap_witness :
    ((UpdateFrontendTrackingMap demoWorldC4 demoRoundC4 demoFsC4).2.refKeyframeId =
      some demoRoundC4.keyframeCurrId) ∧
    ((UpdateFrontendTrackingMap demoWorldC4 demoRoundC4 demoFsC4).2.trackingMapIds =
      demoWorldC4.allMappointIds) := by
  have h := handoff_rebuilds_trackingMap demoWorldC4 demoRoundC4 demoFsC4 (by decide)
  exact ⟨h.1, h.2.2.2 (by decide)⟩

/-- The property C3 claims of the handoff: for every keyframe with a pose
vertex and every mappoint with a vertex in this round's optimizer, the
stored pose / position afterwards equals that vertex's estimate. -/
def handoffWritesAllVertices (w : HandoffWorld) (r : HandoffRound)
    (fs : FrontendState) : Prop :=
  (∀ p ∈ r.covKfVertex,
    lookupA (UpdateFrontendTrackingMap w r fs).1.kfPose p.1 = some p.2) ∧
  (∀ p ∈ r.mptVertex,
    lookupA (UpdateFrontendTrackingMap w r fs).1.mptPosition p.1 = some p.2)

instance handoffWritesAllVerticesDecidable (w : HandoffWorld) (r : HandoffRound)
    (fs : FrontendState) : Decidable (handoffWritesAllVertices w r fs) := by
  unfold handoffWritesAllVertices
  infer_instance

/-- Demo frontend state whose reference keyframe already is keyframe 9
(the same-id branch of the handoff). -/
def demoFsC3 : FrontendState := { refKeyframeId := some 9, trackingMapIds := [5] }

/-- C3 counterexample: on the demo state, mappoint 5 has a vertex with
estimate 99 but is flagged outlier, so the handoff leaves its stored
position at 7 — not every mappoint with a vertex ends up at its vertex's
estimate. -/
theorem handoff_skips_outlier_positions :
    ¬ handoffWritesAllVertices demoWorldC4 demoRoundC4 demoFsC3 := by
  decide

/-- C3 amended: after the handoff callback (in either branch of the
refKeyframe test), every keyframe with a covisible pose vertex has its
stored pose equal to that vertex's estimate, and every non-outlier mappoint
with a vertex has its stored position equal to that vertex's estimate;
outlier mappoints are skipped by the write-back. -/
theorem handoff_writes_back_amended (w : HandoffWorld) (r : HandoffRound)
    (fs : FrontendState)
    (hcov : (r.covKfVertex.map Prod.fst).Nodup)
    (hmpt : (r.mptVertex.map Prod.fst).Nodup) :
    (∀ p ∈ r.covKfVertex,
      lookupA (UpdateFrontendTrackingMap w r fs).1.kfPose p.1 = some p.2) ∧
    (∀ p ∈ r.mptVertex, p.1 ∉ w.mptOutlier →
      lookupA (UpdateFrontendTrackingMap w r fs).1.mptPosition p.1 = some p.2) := by
  constructor
  · intro p hp
    exact writeBackPoses_hit w.kfPose r.covKfVertex p.1 p.2 hcov hp
  · intro p hp hout
    exact writeBackPositions_hit w.mptPosition w.mptOutlier r.mptVertex p.1 p.2
      hmpt hp hout

/-- C3 amended witness: on the demo state plus a non-outlier mappoint 6 and
a pose vertex for keyframe 2, the write-backs install the estimates. -/
theorem handoff_writes_back_amended_witness :
    (∀ p ∈ [((2 : Nat), (41 : Int))],
      lookupA (UpdateFrontendTrackingMap demoWorldC4
        ⟨9, [(2, 41)], [(5, 99), (6, 44)]⟩ demoFsC3).1.kfPose p.1 = some p.2) ∧
    (∀ p ∈ [((5 : Nat), (99 : Int)), (6, 44)], p.1 ∉ demoWorldC4.mptOutlier →
      lookupA (UpdateFrontendTrackingMap demoWorldC4
        ⟨9, [(2, 41)], [(5, 99), (6, 44)]⟩ demoFsC3).1.mptPosition p.1 = some p.2) :=
  handoff_writes_back_amended demoWorldC4 ⟨9, [(2, 41)], [(5, 99), (6, 44)]⟩
    demoFsC3 (by decide) (by decide)

/-- C10: when the handoff runs while refKeyframe already is the
just-processed keyframe, the frontend state (refKeyframe and the tracking
map) is returned unchanged, and the only world mutations are the pose
write-backs for covisible pose vertices and the position write-backs for
non-outlier mappoint vertices: every other pose and position, the outlier
flags and the Map Manager snapshot are untouched. -/
theorem handoff_same_ref_frame_effect (w : HandoffWorld) (r : HandoffRound)
    (fs : FrontendState) (href : fs.refKeyframeId = some r.keyframeCurrId)
    (hcov : (r.covKfVertex.map Prod.fst).Nodup)
    (hmpt : (r.mptVertex.map Prod.fst).Nodup) :
    ((UpdateFrontendTrackingMap w r fs).2 = fs) ∧
    (∀ p ∈ r.covKfVertex,
      lookupA (UpdateFrontendTrackingMap w r fs).1.kfPose p.1 = some p.2) ∧
    (∀ k, k ∉ r.covKfVertex.map Prod.fst →
      lookupA (UpdateFrontendTrackingMap w r fs).1.kfPose k = lookupA w.kfPose k) ∧
    (∀ p ∈ r.mptVertex, p.1 ∉ w.mptOutlier →
      lookupA (UpdateFrontendTrackingMap w r fs).1.mptPosition p.1 = some p.2) ∧
    (∀ k, k ∈ w.mptOutlier ∨ k ∉ r.mptVertex.map Prod.fst →
      lookupA (UpdateFrontendTrackingMap w r fs).1.mptPosition k =
        lookupA w.mptPosition k) ∧
    ((UpdateFrontendTrackingMap w r fs).1.mptOutlier = w.mptOutlier) ∧
    ((UpdateFrontendTrackingMap w r fs).1.allMappointIds = w.allMappointIds) := by
  refine ⟨?_, ?_, ?_, ?_, ?_, rfl, rfl⟩
  · simp only [UpdateFrontendTrackingMap, if_pos href]
  · intro p hp
    exact writeBackPoses_hit w.kfPose r.covKfVertex p.1 p.2 hcov hp
  · intro k hk
    exact writeBackPoses_frozen w.kfPose r.covKfVertex k hk
  · intro p hp hout
    exact writeBackPositions_hit w.mptPosition w.mptOutlier r.mptVertex p.1 p.2
      hmpt hp hout
  · intro k hk
    exact writeBackPositions_frozen w.mptPosition w.mptOutlier r.mptVertex k hk

/-- C10 witness: on the demo same-id state, the frontend state is returned
unchanged while the non-outlier write-backs take effect. -/
theorem handoff_same_ref_frame_effect_witness :
    ((UpdateFrontendTrackingMap demoWorldC4 demoRoundC4 demoFsC3).2 = demoFsC3) ∧
    (∀ k, k ∈ demoWorldC4.mptOutlier ∨ k ∉ demoRoundC4.mptVertex.map Prod.fst →
      lookupA (UpdateFrontendTrackingMap demoWorldC4 demoRoundC4 demoFsC3).1.mptPosition k =
        lookupA demoWorldC4.mptPosition k) :=
  have h := handoff_same_ref_frame_effect demoWorldC4 demoRoundC4 demoFsC3
    (by decide) (by decide) (by decide)
  ⟨h.1, h.2.2.2.2.1⟩

/-! ## C9: identifier allocation (`mappoint.cpp`, `Frame::factoryId_`) -/

/-- Wraparound modulus of the 64-bit unsigned counters (`unsigned long` /
`size_t` on the 64-bit target). -/
def UINT64_MOD : Nat := 2 ^ 64

/-- State of a `MapPoint` as constructed in `mappoint.cpp`: id, position,
norm, `good_`, `visible_times_`, `matched_times_`, descriptor, the pushed
observing frame pointers (possibly null) and observed pixel positions.
Geometric values are opaque tokens. -/
structure MapPoint where
  id : Nat
  pos : Int × Int × Int
  norm : Int × Int × Int
  good : Bool
  visibleTimes : Nat
  matchedTimes : Nat
  descriptor : Nat
  observedFrames : List (Option Nat)
  observedPixelPos : List (Int × Int)
deriving DecidableEq, Repr

/-- Model of the default constructor `MapPoint::MapPoint()`: it initializes
`id_(-1)`; assigning −1 to the `long unsigned int` member yields 2^64 − 1.
No counter is consulted. -/
def MapPoint.defaultCtor : MapPoint :=
  { id := UINT64_MOD - 1
    pos := (0, 0, 0)
    norm := (0, 0, 0)
    good := false
    visibleTimes := 0
    matchedTimes := 0
    descriptor := 0
    observedFrames := []
    observedPixelPos := [] }

/-- Model of the parameterized constructor
`MapPoint::MapPoint(id, position, norm, pixel_pos, frame, descriptor)`:
stores the given id (converted to the 64-bit unsigned member), sets
`good_(false)`, `visible_times_(1)`, `matched_times_(1)` and pushes the
frame and the pixel position. -/
def MapPoint.paramCtor (id : Nat) (pos norm : Int × Int × Int)
    (pixelPos : Int × Int) (frame : Option Nat) (descriptor : Nat) : MapPoint :=
  { id := id % UINT64_MOD
    pos := pos
    norm := norm
    good := false
    visibleTimes := 1
    matchedTimes := 1
    descriptor := descriptor
    observedFrames := [frame]
    observedPixelPos := [pixelPos] }

/-- Model of the factory `MapPoint::createMapPoint()`: constructs a
mappoint from `factory_id_++` with zero position, norm and pixel position
(frame and descriptor defaulted), returning the point and the incremented
counter. -/
def createMapPointSimple (factoryId : Nat) : MapPoint × Nat :=
  (MapPoint.paramCtor factoryId (0, 0, 0) (0, 0, 0) (0, 0) none 0,
   (factoryId + 1) % UINT64_MOD)

/-- Model of the factory
`MapPoint::createMapPoint(pos_world, norm, pixel_pos, descriptor, frame)`:
constructs a mappoint from `factory_id_++` with the given data. -/
def createMapPointFull (pos norm : Int × Int × Int) (pixelPos : Int × Int)
    (descriptor : Nat) (frame : Option Nat) (factoryId : Nat) : MapPoint × Nat :=
  (MapPoint.paramCtor factoryId pos norm pixelPos frame descriptor,
   (factoryId + 1) % UINT64_MOD)

/-- The public construction paths of `MapPoint` visible in `mappoint.cpp`:
the default constructor and the two factory overloads. -/
inductive MptCtorCall where
  | defaultCtor : MptCtorCall
  | createSimple : MptCtorCall
  | createFull (pos norm : Int × Int × Int) (pixelPos : Int × Int)
      (descriptor : Nat) (frame : Option Nat) : MptCtorCall
deriving DecidableEq, Repr

/-- A run of mappoint constructions threading the process-wide counter
`MapPoint::factory_id_` (initialized to 0 at program start). -/
def runMptCtorCalls : List MptCtorCall → Nat → List MapPoint × Nat
  | [], c => ([], c)
  | call :: rest, c =>
      let step : MapPoint × Nat :=
        match call with
        | MptCtorCall.defaultCtor => (MapPoint.defaultCtor, c)
        | MptCtorCall.createSimple => createMapPointSimple c
        | MptCtorCall.createFull pos norm px d f =>
            createMapPointFull pos norm px d f c
      let next := runMptCtorCalls rest step.2
      (step.1 :: next.1, next.2)

/-- The property C9 claims of mappoint construction: across a run, every
public construction path yields pairwise distinct ids (ids never reused). -/
def mptIdsNeverReused (calls : List MptCtorCall) (c : Nat) : Prop :=
  ((runMptCtorCalls calls c).1.map MapPoint.id).Nodup

instance mptIdsNeverReusedDecidable (calls : List MptCtorCall) (c : Nat) :
    Decidable (mptIdsNeverReused calls c) := by
  unfold mptIdsNeverReused
  infer_instance

/-- C9 counterexample: two default-constructed mappoints both carry id
2^64 − 1 (the sentinel from `id_(-1)`), which is not allocated from the
counter, so an id is reused within a single run. -/
theorem default_ctor_reuses_id :
    ¬ mptIdsNeverReused [MptCtorCall.defaultCtor, MptCtorCall.defaultCtor] 0 := by
  decide

/-- Helper: a run consisting only of factory calls with no counter
wraparound yields exactly the ids `c, c+1, …`. -/
theorem runMptCtorCalls_factory_ids (calls : List MptCtorCall) (c : Nat)
    (hno : MptCtorCall.defaultCtor ∉ calls)
    (hbound : c + calls.length ≤ UINT64_MOD) :
    (runMptCtorCalls calls c).1.map MapPoint.id = List.range' c calls.length := by
  induction calls generalizing c with
  | nil => rfl
  | cons call rest ih =>
      have hno' : MptCtorCall.defaultCtor ∉ rest := fun h => hno (List.mem_cons_of_mem _ h)
      have hclt : c < UINT64_MOD := by
        have := hbound
        simp only [List.length_cons] at this
        omega
      have hcmod : c % UINT64_MOD = c := Nat.mod_eq_of_lt hclt
      cases call with
      | defaultCtor => exact absurd (List.mem_cons_self _ _) hno
      | createSimple =>
          show (MapPoint.paramCtor c (0,0,0) (0,0,0) (0,0) none 0).id ::
              (runMptCtorCalls rest ((c + 1) % UINT64_MOD)).1.map MapPoint.id =
            List.range' c (rest.length + 1)
          cases rest with
          | nil => simp [runMptCtorCalls, MapPoint.paramCtor, hcmod, List.range']
          | cons r rs =>
              have hc1 : (c + 1) % UINT64_MOD = c + 1 := by
                apply Nat.mod_eq_of_lt
                simp only [List.length_cons] at hbound
                omega
              rw [hc1, ih (c + 1) hno'
                (by simp only [List.length_cons] at hbound ⊢; omega)]
              simp [MapPoint.paramCtor, hcmod, List.range']
      | createFull pos norm px d f =>
          show (MapPoint.paramCtor c pos norm px f d).id ::
              (runMptCtorCalls rest ((c + 1) % UINT64_MOD)).1.map MapPoint.id =
            List.range' c (rest.length + 1)
          cases rest with
          | nil => simp [runMptCtorCalls, MapPoint.paramCtor, hcmod, List.range']
          | cons r rs =>
              have hc1 : (c + 1) % UINT64_MOD = c + 1 := by
                apply Nat.mod_eq_of_lt
                simp only [List.length_cons] at hbound
                omega
              rw [hc1, ih (c + 1) hno'
                (by simp only [List.length_cons] at hbound ⊢; omega)]
              simp [MapPoint.paramCtor, hcmod, List.range']

/-- Modelled from the spec: `Frame::CreateFrame` — the frame implementation
file is not among the sources; per the spec (and the declaration of
`Frame::factoryId_` in frame.h) every frame is allocated the next value of
the process-wide 64-bit counter at construction.  A run of `n` frame
creations from counter `c` yields these ids and the advanced counter. -/
def runCreateFrames : Nat → Nat → List Nat × Nat
  | 0, c => ([], c)
  | n + 1, c =>
      let next := runCreateFrames n ((c + 1) % UINT64_MOD)
      (c % UINT64_MOD :: next.1, next.2)

/-- Helper: frame creations without counter wraparound yield `c, c+1, …`. -/
theorem runCreateFrames_ids (n c : Nat) (hbound : c + n ≤ UINT64_MOD) :
    (runCreateFrames n c).1 = List.range' c n := by
  induction n generalizing c with
  | zero => rfl
  | succ m ih =>
      have hclt : c < UINT64_MOD := by omega
      show c % UINT64_MOD :: (runCreateFrames m ((c + 1) % UINT64_MOD)).1 =
        List.range' c (m + 1)
      rcases Nat.eq_zero_or_pos m with hm | hm
      · subst hm
        simp [runCreateFrames, Nat.mod_eq_of_lt hclt, List.range']
      · have hc1 : (c + 1) % UINT64_MOD = c + 1 := Nat.mod_eq_of_lt (by omega)
        rw [hc1, ih (c + 1) (by omega)]
        simp [Nat.mod_eq_of_lt hclt, List.range']

/-- C9 amended: mappoints produced by the two `createMapPoint` factory
paths, and keyframes, carry 64-bit ids allocated from their process-wide
counters, strictly increasing and never reused within a run (absent counter
wraparound); the default `MapPoint` constructor, however, assigns the fixed
sentinel 2^64 − 1 outside the counter. -/
theorem factory_ids_never_reused (calls : List MptCtorCall) (c : Nat)
    (nFrames cf : Nat)
    (hno : MptCtorCall.defaultCtor ∉ calls)
    (hbound : c + calls.length ≤ UINT64_MOD)
    (hfbound : cf + nFrames ≤ UINT64_MOD) :
    ((runMptCtorCalls calls c).1.map MapPoint.id = List.range' c calls.length) ∧
    ((runMptCtorCalls calls c).1.map MapPoint.id).Nodup ∧
    ((runCreateFrames nFrames cf).1 = List.range' cf nFrames) ∧
    (runCreateFrames nFrames cf).1.Nodup ∧
    MapPoint.defaultCtor.id = UINT64_MOD - 1 := by
  have h1 := runMptCtorCalls_factory_ids calls c hno hbound
  have h2 := runCreateFrames_ids nFrames cf hfbound
  refine ⟨h1, ?_, h2, ?_, rfl⟩
  · rw [h1]; exact List.nodup_range' _ _
  · rw [h2]; exact List.nodup_range' _ _

/-- C9 amended witness: three factory calls from counter 0 and two frame
creations from counter 0 yield the distinct id sequences `[0, 1, 2]` and
`[0, 1]`. -/
theorem factory_ids_never_reused_witness :
    ((runMptCtorCalls [MptCtorCall.createSimple, MptCtorCall.createSimple,
        MptCtorCall.createFull (1, 2, 3) (0, 0, 1) (4, 5) 77 (some 0)] 0).1.map
      MapPoint.id = List.range' 0 3) ∧
    ((runMptCtorCalls [MptCtorCall.createSimple, MptCtorCall.createSimple,
        MptCtorCall.createFull (1, 2, 3) (0, 0, 1) (4, 5) 77 (some 0)] 0).1.map
      MapPoint.id).Nodup ∧
    ((runCreateFrames 2 0).1 = List.range' 0 2) ∧
    (runCreateFrames 2 0).1.Nodup ∧
    MapPoint.defaultCtor.id = UINT64_MOD - 1 :=
  factory_ids_never_reused
    [MptCtorCall.createSimple, MptCtorCall.createSimple,
      MptCtorCall.createFull (1, 2, 3) (0, 0, 1) (4, 5) 77 (some 0)] 0 2 0
    (by decide) (by norm_num [UINT64_MOD]) (by norm_num [UINT64_MOD])

/-! ## C7: candidate recording in `Backend::AddNewMappointsToExistingKeyframe`

The fusion loop probes every covisible keyframe against every new mappoint:
`GetMatchedKeypoint` and `IsKeypointMatchWithMappoint` are modelled as
oracles `matchQ : kfId → mptId → Option (kptIdx × distance)` and
`kptMatched : kfId → kptIdx → Option oldMptId` (both constant during the
loop, since observations and replacements are committed only afterwards).
Mappoints are represented by their ids. -/

/-- Record a candidate `(id, distance)` under key `k`, keeping the existing
entry unless the new distance is strictly smaller: models
`if (map.count(k) && distance >= map[k].second) continue; map[k] = …;`
(backend.cpp:124–128 and 131–135). -/
def recordCand (m : List (Nat × Nat × Int)) (k : Nat) (c : Nat × Int) :
    List (Nat × Nat × Int) :=
  match lookupA m k with
  | some p => if c.2 ≥ p.2 then m else updateA m k c
  | none => updateA m k c

/-- The two per-keyframe candidate maps threaded through the inner loop:
`oldMptIdToNewMptIdAndDistance` (persistent across keyframes) and
`kptIdxToMptAndDistance` (cleared per keyframe). -/
structure FuseMaps where
  oldMap : List (Nat × Nat × Int)
  kptMap : List (Nat × Nat × Int)
deriving DecidableEq, Repr

/-- Body of the inner fusion loop for one `(keyframe, new mappoint)` pair:
skip when no keypoint matches or the distance exceeds
`reMatchDescriptorDistance_`; otherwise record a replacement candidate when
the keypoint is already matched, or an observation candidate when it is
empty. -/
def fuseStep (matchQ : Nat → Nat → Option (Nat × Int))
    (kptMatched : Nat → Nat → Option Nat) (reTh : Int) (kfId : Nat)
    (st : FuseMaps) (mptId : Nat) : FuseMaps :=
  match matchQ kfId mptId with
  | none => st
  | some (kptIdx, d) =>
      if d > reTh then st
      else
        match kptMatched kfId kptIdx with
        | some oldMptId =>
            { st with oldMap := recordCand st.oldMap oldMptId (mptId, d) }
        | none => { st with kptMap := recordCand st.kptMap kptIdx (mptId, d) }

/-- Result of the fusion sweep: the final replacement-candidate map and
`observationsToAdd` as `(kfId, mptId, kptIdx)` triples. -/
structure FuseResult where
  oldMap : List (Nat × Nat × Int)
  obs : List (Nat × Nat × Nat)
deriving DecidableEq, Repr

/-- Per-keyframe body of the fusion sweep: run the inner loop over all new
mappoints with a cleared keypoint map, then commit this keyframe's empty
keypoint matches to `observationsToAdd`. -/
def fuseKf (matchQ : Nat → Nat → Option (Nat × Int))
    (kptMatched : Nat → Nat → Option Nat) (reTh : Int) (newMptIds : List Nat)
    (st : FuseResult) (kfId : Nat) : FuseResult :=
  let inner := newMptIds.foldl (fuseStep matchQ kptMatched reTh kfId)
    ⟨st.oldMap, []⟩
  { oldMap := inner.oldMap
    obs := st.obs ++ inner.kptMap.map (fun p => (kfId, p.2.1, p.1)) }

/-- The fusion sweep of `Backend::AddNewMappointsToExistingKeyframe`
(backend.cpp:113–143) over the covisible keyframes. -/
def fuseNewMappoints (matchQ : Nat → Nat → Option (Nat × Int))
    (kptMatched : Nat → Nat → Option Nat) (reTh : Int)
    (covisibleKfIds : List Nat) (newMptIds : List Nat) : FuseResult :=
  covisibleKfIds.foldl (fuseKf matchQ kptMatched reTh newMptIds) ⟨[], []⟩

/-- The candidate event produced by probing one keyframe against one new
mappoint: `some (true, oldMptId, (mptId, d))` for a replacement candidate,
`some (false, kptIdx, (mptId, d))` for an observation candidate, `none`
when the probe is skipped. -/
def candOf (matchQ : Nat → Nat → Option (Nat × Int))
    (kptMatched : Nat → Nat → Option Nat) (reTh : Int) (kfId mptId : Nat) :
    Option (Bool × Nat × (Nat × Int)) :=
  match matchQ kfId mptId with
  | none => none
  | some (kptIdx, d) =>
      if d > reTh then none
      else
        match kptMatched kfId kptIdx with
        | some oldMptId => some (true, oldMptId, (mptId, d))
        | none => some (false, kptIdx, (mptId, d))

/-- Projection of a candidate event onto replacement candidates for a given
old mappoint id. -/
def oldCandFilter (k : Nat) : Option (Bool × Nat × (Nat × Int)) →
    Option (Nat × Int)
  | some (true, k', v) => if k' = k then some v else none
  | _ => none

/-- Projection of a candidate event onto observation candidates for a given
keypoint index. -/
def kptCandFilter (k : Nat) : Option (Bool × Nat × (Nat × Int)) →
    Option (Nat × Int)
  | some (false, k', v) => if k' = k then some v else none
  | _ => none

/-- Replacement candidates for old mappoint id `k` produced while sweeping
one keyframe, in encounter order. -/
def oldCandsKf (matchQ : Nat → Nat → Option (Nat × Int))
    (kptMatched : Nat → Nat → Option Nat) (reTh : Int) (kfId : Nat)
    (newMptIds : List Nat) (k : Nat) : List (Nat × Int) :=
  newMptIds.filterMap
    (fun m => oldCandFilter k (candOf matchQ kptMatched reTh kfId m))

/-- Observation candidates for keypoint `k` of one keyframe, in encounter
order. -/
def kptCandsKf (matchQ : Nat → Nat → Option (Nat × Int))
    (kptMatched : Nat → Nat → Option Nat) (reTh : Int) (kfId : Nat)
    (newMptIds : List Nat) (k : Nat) : List (Nat × Int) :=
  newMptIds.filterMap
    (fun m => kptCandFilter k (candOf matchQ kptMatched reTh kfId m))

/-- Replacement candidates for old mappoint id `k` across all covisible
keyframes, in encounter order. -/
def oldCands (matchQ : Nat → Nat → Option (Nat × Int))
    (kptMatched : Nat → Nat → Option Nat) (reTh : Int) (newMptIds : List Nat) :
    List Nat → Nat → List (Nat × Int)
  | [], _ => []
  | kfId :: kfIds, k =>
      oldCandsKf matchQ kptMatched reTh kfId newMptIds k ++
        oldCands matchQ kptMatched reTh newMptIds kfIds k

/-- One strict-improvement step of the best-candidate selection. -/
def candStep (acc : Option (Nat × Int)) (c : Nat × Int) : Option (Nat × Int) :=
  match acc with
  | none => some c
  | some b => if c.2 < b.2 then some c else some b

/-- Best-candidate selection over a candidate stream: keep the current best
and replace it only on strict improvement. -/
def chooseBest (acc : Option (Nat × Int)) : List (Nat × Int) → Option (Nat × Int)
  | [] => acc
  | c :: cs => chooseBest (candStep acc c) cs

theorem chooseBest_append (l1 l2 : List (Nat × Int)) (acc : Option (Nat × Int)) :
    chooseBest acc (l1 ++ l2) = chooseBest (chooseBest acc l1) l2 := by
  induction l1 generalizing acc with
  | nil => rfl
  | cons c cs ih => exact ih (candStep acc c)

theorem lookupA_recordCand_self (m : List (Nat × Nat × Int)) (k : Nat)
    (c : Nat × Int) :
    lookupA (recordCand m k c) k = candStep (lookupA m k) c := by
  unfold recordCand candStep
  cases h : lookupA m k with
  | none => simp [lookupA_updateA_self]
  | some p =>
      by_cases hlt : c.2 < p.2
      · have hge : ¬ c.2 ≥ p.2 := by omega
        simp [hge, hlt, lookupA_updateA_self]
      · have hge : c.2 ≥ p.2 := by omega
        simp [hge, hlt, h]

theorem lookupA_recordCand_other (m : List (Nat × Nat × Int)) (k k' : Nat)
    (c : Nat × Int) (h : k' ≠ k) :
    lookupA (recordCand m k' c) k = lookupA m k := by
  unfold recordCand
  cases lookupA m k' with
  | none => exact lookupA_updateA_other m k k' c h
  | some p =>
      by_cases hge : c.2 ≥ p.2
      · simp [hge]
      · simp [hge, lookupA_updateA_other m k k' c h]

/-- Bridge: one fusion step is the action of its candidate event. -/
theorem fuseStep_eq_candOf (matchQ : Nat → Nat → Option (Nat × Int))
    (kptMatched : Nat → Nat → Option Nat) (reTh : Int) (kfId : Nat)
    (st : FuseMaps) (mptId : Nat) :
    fuseStep matchQ kptMatched reTh kfId st mptId =
      match candOf matchQ kptMatched reTh kfId mptId with
      | none => st
      | some (true, k, v) => { st with oldMap := recordCand st.oldMap k v }
      | some (false, k, v) => { st with kptMap := recordCand st.kptMap k v } := by
  unfold fuseStep candOf
  cases hm : matchQ kfId mptId with
  | none => rfl
  | some kd =>
      obtain ⟨kptIdx, d⟩ := kd
      by_cases hd : d > reTh
      · simp [hd]
      · simp only [if_neg hd]
        cases kptMatched kfId kptIdx <;> rfl

theorem oldCandsKf_cons (matchQ : Nat → Nat → Option (Nat × Int))
    (kptMatched : Nat → Nat → Option Nat) (reTh : Int) (kfId m : Nat)
    (ms : List Nat) (k : Nat) :
    oldCandsKf matchQ kptMatched reTh kfId (m :: ms) k =
      match oldCandFilter k (candOf matchQ kptMatched reTh kfId m) with
      | none => oldCandsKf matchQ kptMatched reTh kfId ms k
      | some v => v :: oldCandsKf matchQ kptMatched reTh kfId ms k := by
  unfold oldCandsKf
  simp only [List.filterMap_cons]
  cases oldCandFilter k (candOf matchQ kptMatched reTh kfId m) <;> rfl

theorem kptCandsKf_cons (matchQ : Nat → Nat → Option (Nat × Int))
    (kptMatched : Nat → Nat → Option Nat) (reTh : Int) (kfId m : Nat)
    (ms : List Nat) (k : Nat) :
    kptCandsKf matchQ kptMatched reTh kfId (m :: ms) k =
      match kptCandFilter k (candOf matchQ kptMatched reTh kfId m) with
      | none => kptCandsKf matchQ kptMatched reTh kfId ms k
      | some v => v :: kptCandsKf matchQ kptMatched reTh kfId ms k := by
  unfold kptCandsKf
  simp only [List.filterMap_cons]
  cases kptCandFilter k (candOf matchQ kptMatched reTh kfId m) <;> rfl

/-- Inner-loop invariant: after sweeping the new mappoints for one
keyframe, each key of either candidate map holds the best (strict-
improvement) choice over its candidate stream, seeded by the incoming
entry. -/
theorem fuseInner_lookup (matchQ : Nat → Nat → Option (Nat × Int))
    (kptMatched : Nat → Nat → Option Nat) (reTh : Int) (kfId : Nat)
    (newMptIds : List Nat) (st : FuseMaps) :
    (∀ k, lookupA
        ((newMptIds.foldl (fuseStep matchQ kptMatched reTh kfId) st).oldMap) k =
      chooseBest (lookupA st.oldMap k)
        (oldCandsKf matchQ kptMatched reTh kfId newMptIds k)) ∧
    (∀ k, lookupA
        ((newMptIds.foldl (fuseStep matchQ kptMatched reTh kfId) st).kptMap) k =
      chooseBest (lookupA st.kptMap k)
        (kptCandsKf matchQ kptMatched reTh kfId newMptIds k)) := by
  induction newMptIds generalizing st with
  | nil => exact ⟨fun k => rfl, fun k => rfl⟩
  | cons m ms ih =>
      have hstep := fuseStep_eq_candOf matchQ kptMatched reTh kfId st m
      rcases hc : candOf matchQ kptMatched reTh kfId m with _ | ⟨b, k', v⟩
      · simp only [hc] at hstep
        constructor
        · intro k
          simp only [List.foldl_cons, hstep, oldCandsKf_cons, hc, oldCandFilter]
          exact (ih st).1 k
        · intro k
          simp only [List.foldl_cons, hstep, kptCandsKf_cons, hc, kptCandFilter]
          exact (ih st).2 k
      · cases b with
        | true =>
            simp only [hc] at hstep
            constructor
            · intro k
              simp only [List.foldl_cons, hstep, oldCandsKf_cons, hc, oldCandFilter]
              by_cases hk : k' = k
              · subst hk
                simp only [if_pos rfl]
                have := (ih { st with oldMap := recordCand st.oldMap k' v }).1 k'
                rw [this]
                show chooseBest (lookupA (recordCand st.oldMap k' v) k') _ =
                  chooseBest (candStep (lookupA st.oldMap k') v) _
                rw [lookupA_recordCand_self]
              · simp only [if_neg hk]
                have := (ih { st with oldMap := recordCand st.oldMap k' v }).1 k
                rw [this]
                show chooseBest (lookupA (recordCand st.oldMap k' v) k) _ = _
                rw [lookupA_recordCand_other st.oldMap k k' v hk]
            · intro k
              simp only [List.foldl_cons, hstep, kptCandsKf_cons, hc, kptCandFilter]
              exact (ih { st with oldMap := recordCand st.oldMap k' v }).2 k
        | false =>
            simp only [hc] at hstep
            constructor
            · intro k
              simp only [List.foldl_cons, hstep, oldCandsKf_cons, hc, oldCandFilter]
              exact (ih { st with kptMap := recordCand st.kptMap k' v }).1 k
            · intro k
              simp only [List.foldl_cons, hstep, kptCandsKf_cons, hc, kptCandFilter]
              by_cases hk : k' = k
              · subst hk
                simp only [if_pos rfl]
                have := (ih { st with kptMap := recordCand st.kptMap k' v }).2 k'
                rw [this]
                show chooseBest (lookupA (recordCand st.kptMap k' v) k') _ =
                  chooseBest (candStep (lookupA st.kptMap k') v) _
                rw [lookupA_recordCand_self]
              · simp only [if_neg hk]
                have := (ih { st with kptMap := recordCand st.kptMap k' v }).2 k
                rw [this]
                show chooseBest (lookupA (recordCand st.kptMap k' v) k) _ = _
                rw [lookupA_recordCand_other st.kptMap k k' v hk]

/-- The keypoint-candidate map computed for one keyframe does not depend on
the incoming replacement-candidate map. -/
theorem fuseInner_kptMap_indep (matchQ : Nat → Nat → Option (Nat × Int))
    (kptMatched : Nat → Nat → Option Nat) (reTh : Int) (kfId : Nat)
    (newMptIds : List Nat) (om1 om2 km : List (Nat × Nat × Int)) :
    (newMptIds.foldl (fuseStep matchQ kptMatched reTh kfId) ⟨om1, km⟩).kptMap =
    (newMptIds.foldl (fuseStep matchQ kptMatched reTh kfId) ⟨om2, km⟩).kptMap := by
  induction newMptIds generalizing om1 om2 km with
  | nil => rfl
  | cons m ms ih =>
      have h1 := fuseStep_eq_candOf matchQ kptMatched reTh kfId ⟨om1, km⟩ m
      have h2 := fuseStep_eq_candOf matchQ kptMatched reTh kfId ⟨om2, km⟩ m
      rcases hc : candOf matchQ kptMatched reTh kfId m with _ | ⟨b, k', v⟩
      · simp only [hc] at h1 h2
        simp only [List.foldl_cons, h1, h2]
        exact ih om1 om2 km
      · cases b with
        | true =>
            simp only [hc] at h1 h2
            simp only [List.foldl_cons, h1, h2]
            exact ih (recordCand om1 k' v) (recordCand om2 k' v) km
        | false =>
            simp only [hc] at h1 h2
            simp only [List.foldl_cons, h1, h2]
            exact ih om1 om2 (recordCand km k' v)

/-- Outer-loop invariant for the replacement-candidate map: its entries are
the best choices over the concatenated per-keyframe candidate streams. -/
theorem fuseOuter_oldMap_lookup (matchQ : Nat → Nat → Option (Nat × Int))
    (kptMatched : Nat → Nat → Option Nat) (reTh : Int) (newMptIds : List Nat)
    (kfIds : List Nat) (st : FuseResult) (k : Nat) :
    lookupA ((kfIds.foldl (fuseKf matchQ kptMatched reTh newMptIds) st).oldMap) k =
      chooseBest (lookupA st.oldMap k)
        (oldCands matchQ kptMatched reTh newMptIds kfIds k) := by
  induction kfIds generalizing st with
  | nil => rfl
  | cons kf kfs ih =>
      simp only [List.foldl_cons]
      rw [ih]
      show chooseBest
          (lookupA ((newMptIds.foldl (fuseStep matchQ kptMatched reTh kf)
            ⟨st.oldMap, []⟩).oldMap) k) _ = _
      rw [(fuseInner_lookup matchQ kptMatched reTh kf newMptIds ⟨st.oldMap, []⟩).1 k]
      show _ = chooseBest (lookupA st.oldMap k)
        (oldCandsKf matchQ kptMatched reTh kf newMptIds k ++
          oldCands matchQ kptMatched reTh newMptIds kfs k)
      rw [chooseBest_append]

/-- The per-keyframe keypoint-candidate map, computed against empty seeds. -/
def innerKptMap (matchQ : Nat → Nat → Option (Nat × Int))
    (kptMatched : Nat → Nat → Option Nat) (reTh : Int) (newMptIds : List Nat)
    (kfId : Nat) : List (Nat × Nat × Int) :=
  (newMptIds.foldl (fuseStep matchQ kptMatched reTh kfId) ⟨[], []⟩).kptMap

/-- The observations committed by the fusion sweep, keyframe by keyframe. -/
def obsOf (matchQ : Nat → Nat → Option (Nat × Int))
    (kptMatched : Nat → Nat → Option Nat) (reTh : Int) (newMptIds : List Nat) :
    List Nat → List (Nat × Nat × Nat)
  | [] => []
  | kfId :: kfIds =>
      (innerKptMap matchQ kptMatched reTh newMptIds kfId).map
          (fun p => (kfId, p.2.1, p.1)) ++
        obsOf matchQ kptMatched reTh newMptIds kfIds

/-- Outer-loop invariant for `observationsToAdd`: the committed entries are
the per-keyframe keypoint-candidate maps in keyframe order. -/
theorem fuseOuter_obs (matchQ : Nat → Nat → Option (Nat × Int))
    (kptMatched : Nat → Nat → Option Nat) (reTh : Int) (newMptIds : List Nat)
    (kfIds : List Nat) (st : FuseResult) :
    (kfIds.foldl (fuseKf matchQ kptMatched reTh newMptIds) st).obs =
      st.obs ++ obsOf matchQ kptMatched reTh newMptIds kfIds := by
  induction kfIds generalizing st with
  | nil => simp [obsOf]
  | cons kf kfs ih =>
      simp only [List.foldl_cons]
      rw [ih]
      have hind := fuseInner_kptMap_indep matchQ kptMatched reTh kf newMptIds
        st.oldMap [] []
      show (st.obs ++ ((newMptIds.foldl (fuseStep matchQ kptMatched reTh kf)
          ⟨st.oldMap, []⟩).kptMap).map (fun p => (kf, p.2.1, p.1))) ++ _ = _
      rw [hind]
      show (st.obs ++ (innerKptMap matchQ kptMatched reTh newMptIds kf).map
          (fun p => (kf, p.2.1, p.1))) ++ _ = _
      rw [List.append_assoc]
      rfl

theorem mem_keys_updateA {α : Type} (m : List (Nat × α)) (k x : Nat) (v : α) :
    x ∈ (updateA m k v).map Prod.fst ↔ x ∈ m.map Prod.fst ∨ x = k := by
  induction m with
  | nil => simp [updateA]
  | cons p rest ih =>
      obtain ⟨k', v'⟩ := p
      show x ∈ (if k' = k then (k, v) :: rest
          else (k', v') :: updateA rest k v).map Prod.fst ↔ _
      by_cases hk : k' = k
      · rw [if_pos hk]
        subst hk
        simp only [List.map_cons, List.mem_cons]
        tauto
      · rw [if_neg hk]
        simp only [List.map_cons, List.mem_cons, ih]
        tauto

theorem keys_nodup_updateA {α : Type} (m : List (Nat × α)) (k : Nat) (v : α)
    (h : (m.map Prod.fst).Nodup) : ((updateA m k v).map Prod.fst).Nodup := by
  induction m with
  | nil => simp [updateA]
  | cons p rest ih =>
      obtain ⟨k', v'⟩ := p
      simp only [List.map_cons, List.nodup_cons] at h
      show ((if k' = k then (k, v) :: rest
          else (k', v') :: updateA rest k v).map Prod.fst).Nodup
      by_cases hk : k' = k
      · rw [if_pos hk]
        subst hk
        simp only [List.map_cons, List.nodup_cons]
        exact h
      · rw [if_neg hk]
        simp only [List.map_cons, List.nodup_cons]
        refine ⟨?_, ih h.2⟩
        intro hmem
        rcases (mem_keys_updateA rest k k' v).mp hmem with h1 | h1
        · exact h.1 h1
        · exact hk h1

theorem keys_nodup_recordCand (m : List (Nat × Nat × Int)) (k : Nat)
    (c : Nat × Int) (h : (m.map Prod.fst).Nodup) :
    ((recordCand m k c).map Prod.fst).Nodup := by
  unfold recordCand
  cases lookupA m k with
  | none => exact keys_nodup_updateA m k c h
  | some p =>
      by_cases hge : c.2 ≥ p.2
      · simpa [hge] using h
      · simpa [hge] using keys_nodup_updateA m k c h

theorem lookupA_eq_of_mem {α : Type} (m : List (Nat × α)) (k : Nat) (v : α)
    (hnd : (m.map Prod.fst).Nodup) (hmem : (k, v) ∈ m) : lookupA m k = some v := by
  induction m with
  | nil => cases hmem
  | cons p rest ih =>
      obtain ⟨k', v'⟩ := p
      simp only [List.map_cons, List.nodup_cons] at hnd
      rcases List.mem_cons.mp hmem with h0 | hrest
      · injection h0 with h1 h2
        subst h1
        subst h2
        simp [lookupA]
      · have hk : k' ≠ k := by
          intro he
          subst he
          exact hnd.1 (List.mem_map_of_mem Prod.fst hrest)
        simp only [lookupA, if_neg hk]
        exact ih hnd.2 hrest

/-- The keypoint-candidate map of one keyframe has unique keys (it models
the C++ map `kptIdxToMptAndDistance`). -/
theorem fuseInner_kptMap_nodup (matchQ : Nat → Nat → Option (Nat × Int))
    (kptMatched : Nat → Nat → Option Nat) (reTh : Int) (kfId : Nat)
    (newMptIds : List Nat) (st : FuseMaps)
    (h : (st.kptMap.map Prod.fst).Nodup) :
    (((newMptIds.foldl (fuseStep matchQ kptMatched reTh kfId) st).kptMap).map
      Prod.fst).Nodup := by
  induction newMptIds generalizing st with
  | nil => exact h
  | cons m ms ih =>
      have hstep := fuseStep_eq_candOf matchQ kptMatched reTh kfId st m
      rcases hc : candOf matchQ kptMatched reTh kfId m with _ | ⟨b, k', v⟩
      · simp only [hc] at hstep
        simp only [List.foldl_cons, hstep]
        exact ih st h
      · cases b with
        | true =>
            simp only [hc] at hstep
            simp only [List.foldl_cons, hstep]
            exact ih { st with oldMap := recordCand st.oldMap k' v } h
        | false =>
            simp only [hc] at hstep
            simp only [List.foldl_cons, hstep]
            exact ih { st with kptMap := recordCand st.kptMap k' v }
              (keys_nodup_recordCand st.kptMap k' v h)

/-- Leftmost-minimum characterization of the best-candidate selection,
generalized over the seed. -/
theorem chooseBest_some_spec (l : List (Nat × Int)) :
    ∀ (a b : Nat × Int), chooseBest (some a) l = some b →
      (b = a ∧ ∀ c ∈ l, a.2 ≤ c.2) ∨
      (∃ l1 l2, l = l1 ++ b :: l2 ∧ b.2 < a.2 ∧ (∀ c ∈ l1, b.2 < c.2) ∧
        (∀ c ∈ l2, b.2 ≤ c.2)) := by
  induction l with
  | nil =>
      intro a b h
      left
      refine ⟨(Option.some.inj h).symm, by simp⟩
  | cons c cs ih =>
      intro a b h
      by_cases hca : c.2 < a.2
      · have h' : chooseBest (some c) cs = some b := by
          simpa [chooseBest, candStep, hca] using h
        rcases ih c b h' with ⟨hb, hall⟩ | ⟨l1, l2, heq, hlt, hbef, haft⟩
        · right
          refine ⟨[], cs, by simp [hb], hb ▸ hca, by simp, ?_⟩
          intro x hx
          exact hb ▸ hall x hx
        · right
          refine ⟨c :: l1, l2, by rw [heq, List.cons_append], lt_trans hlt hca, ?_, haft⟩
          intro x hx
          rcases List.mem_cons.mp hx with h0 | h0
          · exact h0 ▸ hlt
          · exact hbef x h0
      · have h' : chooseBest (some a) cs = some b := by
          simpa [chooseBest, candStep, hca] using h
        rcases ih a b h' with ⟨hb, hall⟩ | ⟨l1, l2, heq, hlt, hbef, haft⟩
        · left
          refine ⟨hb, ?_⟩
          intro x hx
          rcases List.mem_cons.mp hx with h0 | h0
          · exact h0 ▸ (not_lt.mp hca)
          · exact hall x h0
        · right
          refine ⟨c :: l1, l2, by rw [heq, List.cons_append], hlt, ?_, haft⟩
          intro x hx
          rcases List.mem_cons.mp hx with h0 | h0
          · exact h0 ▸ (lt_of_lt_of_le hlt (not_lt.mp hca))
          · exact hbef x h0

/-- Leftmost-minimum characterization from an empty seed: the selected
candidate occurs in the stream, every earlier candidate is strictly
farther, and every later one no closer. -/
theorem chooseBest_none_spec (l : List (Nat × Int)) (b : Nat × Int)
    (h : chooseBest none l = some b) :
    ∃ l1 l2, l = l1 ++ b :: l2 ∧ (∀ c ∈ l1, b.2 < c.2) ∧ (∀ c ∈ l2, b.2 ≤ c.2) := by
  cases l with
  | nil => cases h
  | cons c cs =>
      have h' : chooseBest (some c) cs = some b := h
      rcases chooseBest_some_spec cs c b h' with ⟨hb, hall⟩ | ⟨l1, l2, heq, hltc, hbef, haft⟩
      · refine ⟨[], cs, by simp [hb], by simp, ?_⟩
        intro x hx
        exact hb ▸ hall x hx
      · refine ⟨c :: l1, l2, by rw [heq, List.cons_append], ?_, haft⟩
        intro x hx
        rcases List.mem_cons.mp hx with h0 | h0
        · exact h0 ▸ hltc
        · exact hbef x h0

/-- Helper: every committed observation stems from an entry of its
keyframe's keypoint-candidate map. -/
theorem obsOf_mem (matchQ : Nat → Nat → Option (Nat × Int))
    (kptMatched : Nat → Nat → Option Nat) (reTh : Int) (newMptIds : List Nat)
    (kfIds : List Nat) (kfId mptId kptIdx : Nat)
    (h : (kfId, mptId, kptIdx) ∈ obsOf matchQ kptMatched reTh newMptIds kfIds) :
    ∃ d, (kptIdx, (mptId, d)) ∈
      innerKptMap matchQ kptMatched reTh newMptIds kfId := by
  induction kfIds with
  | nil => cases h
  | cons kf kfs ih =>
      rcases List.mem_append.mp h with h1 | h2
      · obtain ⟨p, hp, hpe⟩ := List.mem_map.mp h1
        obtain ⟨a, b, c⟩ := p
        injection hpe with h1a hrest
        injection hrest with h1b h1c
        subst h1a
        subst h1b
        subst h1c
        exact ⟨c, hp⟩
      · exact ih h2

/-- C7: during fusion, every recorded replacement candidate for an old
mappoint id is the candidate with the smallest distance across all covisible
keyframes and all new mappoints, and every committed observation gives a
previously unmatched keypoint its smallest-distance new mappoint — in both
cases, the candidate occurs in its encounter-ordered candidate stream with
every earlier candidate strictly farther (so on equal distances the earlier
one encountered wins) and every later candidate no closer. -/
theorem fusion_keeps_best_candidates (matchQ : Nat → Nat → Option (Nat × Int))
    (kptMatched : Nat → Nat → Option Nat) (reTh : Int)
    (covisibleKfIds newMptIds : List Nat) :
    (∀ k mptId d,
      lookupA (fuseNewMappoints matchQ kptMatched reTh covisibleKfIds
          newMptIds).oldMap k = some (mptId, d) →
      ∃ l1 l2,
        oldCands matchQ kptMatched reTh newMptIds covisibleKfIds k =
          l1 ++ (mptId, d) :: l2 ∧
        (∀ c ∈ l1, d < c.2) ∧ (∀ c ∈ l2, d ≤ c.2)) ∧
    (∀ kfId mptId kptIdx,
      (kfId, mptId, kptIdx) ∈ (fuseNewMappoints matchQ kptMatched reTh
          covisibleKfIds newMptIds).obs →
      ∃ d l1 l2,
        kptCandsKf matchQ kptMatched reTh kfId newMptIds kptIdx =
          l1 ++ (mptId, d) :: l2 ∧
        (∀ c ∈ l1, d < c.2) ∧ (∀ c ∈ l2, d ≤ c.2)) := by
  constructor
  · intro k mptId d hlook
    rw [fuseNewMappoints,
      fuseOuter_oldMap_lookup matchQ kptMatched reTh newMptIds covisibleKfIds
        ⟨[], []⟩ k] at hlook
    exact chooseBest_none_spec _ _ hlook
  · intro kfId mptId kptIdx hmem
    rw [fuseNewMappoints,
      fuseOuter_obs matchQ kptMatched reTh newMptIds covisibleKfIds ⟨[], []⟩]
      at hmem
    have hmem2 : (kfId, mptId, kptIdx) ∈
        obsOf matchQ kptMatched reTh newMptIds covisibleKfIds := hmem
    obtain ⟨d, hd⟩ := obsOf_mem matchQ kptMatched reTh newMptIds covisibleKfIds
      kfId mptId kptIdx hmem2
    have hnd := fuseInner_kptMap_nodup matchQ kptMatched reTh kfId newMptIds
      ⟨[], []⟩ (by simp)
    have hlook := lookupA_eq_of_mem _ kptIdx (mptId, d) hnd hd
    rw [(fuseInner_lookup matchQ kptMatched reTh kfId newMptIds ⟨[], []⟩).2
      kptIdx] at hlook
    exact ⟨d, chooseBest_none_spec _ _ hlook⟩

/-- Demo `GetMatchedKeypoint` oracle: keyframe 1 matches both new mappoints
10 and 11 at keypoint 0 with equal distance 5; keyframe 2 matches new
mappoint 10 at keypoint 3 with distance 4. -/
def demoMatchQ : Nat → Nat → Option (Nat × Int) := fun kfId mptId =>
  if kfId = 1 then
    if mptId = 10 then some (0, 5)
    else if mptId = 11 then some (0, 5)
    else none
  else if kfId = 2 then
    if mptId = 10 then some (3, 4) else none
  else none

/-- Demo `IsKeypointMatchWithMappoint` oracle: keyframe 1's keypoint 0 is
already matched to old mappoint 42; everything else is unmatched. -/
def demoKptMatched : Nat → Nat → Option Nat := fun kfId kptIdx =>
  if kfId = 1 then (if kptIdx = 0 then some 42 else none) else none

/-- C7 witness: on the demo oracles with threshold 100, keyframes `[1, 2]`
and new mappoints `[10, 11]`, old mappoint 42's recorded replacement
`(10, 5)` is the earliest smallest-distance candidate of its stream (the
tied later candidate 11 loses), and the committed observation `(2, 10, 3)`
is the best candidate for keyframe 2's keypoint 3. -/
theorem fusion_keeps_best_candidates_witness :
    (∃ l1 l2,
      oldCands demoMatchQ demoKptMatched 100 [10, 11] [1, 2] 42 =
        l1 ++ ((10 : Nat), (5 : Int)) :: l2 ∧
      (∀ c ∈ l1, (5 : Int) < c.2) ∧ (∀ c ∈ l2, (5 : Int) ≤ c.2)) ∧
    (∃ d l1 l2,
      kptCandsKf demoMatchQ demoKptMatched 100 2 [10, 11] 3 =
        l1 ++ ((10 : Nat), d) :: l2 ∧
      (∀ c ∈ l1, d < c.2) ∧ (∀ c ∈ l2, d ≤ c.2)) :=
  ⟨(fusion_keeps_best_candidates demoMatchQ demoKptMatched 100 [1, 2]
      [10, 11]).1 42 10 5 (by decide),
   (fusion_keeps_best_candidates demoMatchQ demoKptMatched 100 [1, 2]
      [10, 11]).2 2 10 3 (by decide)⟩

end RgbdVO
